import Mathlib

/-!
Verification of the image acquisition → decode → adapt → clipboard-write
pipeline of the clipboard-history application (`src-tauri/src/image_handler/`).

The Rust sources are shallowly embedded: machine integers (`u32`, `u64`,
`usize`) become `Nat` with explicit saturation where the code saturates,
strings become `List Char`, fallible functions return `Except ImageError`,
and external effects (the OS clipboard, the system clock, DNS resolution,
the random jitter generator) become explicit function parameters so the
theorems quantify over every possible behaviour of the environment.
-/

namespace ClipboardHistory
/-- Error taxonomy of `image_handler/error.rs` (`ImageError`). -/
inductive ImageError where
  | Network (msg : List Char)
  | Decode (msg : List Char)
  | InvalidFormat (msg : List Char)
  | Clipboard (msg : List Char)
  | ClipboardBusy (msg : List Char)
  | FileSystem (msg : List Char)
  | Timeout (msg : List Char)
  | Cancelled (msg : List Char)
  | ResourceLimit (msg : List Char)
  deriving DecidableEq, Repr

/-- Resize filter strategy of the `image` crate (`image::imageops::FilterType`),
as stored in the configuration. -/
inductive FilterType where
  | Nearest | Triangle | CatmullRom | Gaussian | Lanczos3
  deriving DecidableEq, Repr

/-- Configuration of `image_handler/config.rs` (`ImageConfig`).  The `u64`,
`u32` and `usize` fields are embedded as `Nat`. -/
structure ImageConfig where
  max_file_size : Nat
  download_timeout : Nat
  connect_timeout : Nat
  stream_first_byte_timeout_ms : Nat
  stream_chunk_timeout_ms : Nat
  max_redirects : Nat
  allow_private_network : Bool
  resolve_dns_for_url_safety : Bool
  max_decoded_pixels : Nat
  max_decoded_bytes : Nat
  adaptive_resize : Bool
  clipboard_target_pixels : Nat
  clipboard_max_dimension : Nat
  resize_filter : FilterType
  clipboard_retries : Nat
  clipboard_retry_delay : Nat
  clipboard_retry_max_total_ms : Nat
  clipboard_retry_max_delay_ms : Nat
  deriving DecidableEq, Repr

/-- Embedding of `ImageConfig::default()` of `config.rs`. -/
def ImageConfig.default : ImageConfig where
  max_file_size := 50 * 1024 * 1024
  download_timeout := 30
  connect_timeout := 8
  stream_first_byte_timeout_ms := 10000
  stream_chunk_timeout_ms := 15000
  max_redirects := 5
  allow_private_network := false
  resolve_dns_for_url_safety := true
  max_decoded_pixels := 40000000
  max_decoded_bytes := 160 * 1024 * 1024
  adaptive_resize := true
  clipboard_target_pixels := 5000000
  clipboard_max_dimension := 2560
  resize_filter := FilterType.Triangle
  clipboard_retries := 3
  clipboard_retry_delay := 100
  clipboard_retry_max_total_ms := 1800
  clipboard_retry_max_delay_ms := 900

/-- Largest value of a Rust `u64`. -/
def U64_MAX : Nat := 2 ^ 64 - 1

/-- Rust `u64::saturating_mul`. -/
def satMul64 (a b : Nat) : Nat := min (a * b) U64_MAX

/-- Rust `u64::saturating_add`. -/
def satAdd64 (a b : Nat) : Nat := min (a + b) U64_MAX

/-- The deterministic (jitter-free) part of the clipboard backoff delay:
`exp = base.saturating_mul(1 << min(attempt-1, 8))` capped at
`max(max_delay_ms, base_delay_ms)` (`clipboard_writer.rs`, lines 112-114). -/
def backoffCapped (base_delay_ms attempt max_delay_ms : Nat) : Nat :=
  min (satMul64 base_delay_ms (2 ^ min (attempt - 1) 8)) (max max_delay_ms base_delay_ms)

/-- Embedding of `compute_backoff_delay_with_jitter` of `clipboard_writer.rs` (lines
111-118).  The value drawn from `next_jitter_u64()` is passed in explicitly
as `jitterVal`, so every theorem about this function quantifies over every
possible jitter draw. -/
def compute_backoff_delay_with_jitter
    (base_delay_ms attempt max_delay_ms jitterVal : Nat) : Nat :=
  let capped := backoffCapped base_delay_ms attempt max_delay_ms
  let jitter_bound := max (capped / 3) 1
  let jitter := jitterVal % (jitter_bound + 1)
  satAdd64 capped jitter

/-- Failure classification of a single clipboard write attempt
(`clipboard_writer.rs`, `ClipboardFailureKind`). -/
inductive ClipboardFailureKind where
  | Busy | Transient | Fatal
  deriving DecidableEq, Repr

/-- Embedding of `ClipboardWriteFailure` of `clipboard_writer.rs`. -/
structure ClipboardWriteFailure where
  kind : ClipboardFailureKind
  message : List Char
  deriving DecidableEq, Repr

/-- Embedding of `ClipboardWriteFailure::is_retryable`: Busy and Transient retry, Fatal
aborts. -/
def ClipboardWriteFailure.is_retryable (f : ClipboardWriteFailure) : Bool :=
  match f.kind with
  | ClipboardFailureKind.Busy => true
  | ClipboardFailureKind.Transient => true
  | ClipboardFailureKind.Fatal => false

/-- Embedding of `would_exceed_retry_budget` of `clipboard_writer.rs` (line 181-183):
`elapsed_ms.saturating_add(wait_ms) > budget_ms` (no overflow in `Nat`). -/
def would_exceed_retry_budget (elapsed_ms wait_ms budget_ms : Nat) : Bool :=
  budget_ms < elapsed_ms + wait_ms

/-- Environment of one `write_image_with_retry` call: the outcome of the
buffer preparation, the outcome of the n-th OS write attempt, the wall-clock
milliseconds the n-th attempt consumes, and the jitter drawn before the n-th
attempt.  These model the OS clipboard, the clock and `next_jitter_u64`. -/
structure RetryEnv where
  prepare : Except (List Char) Unit
  tryWrite : Nat → Except ClipboardWriteFailure Unit
  attemptDuration : Nat → Nat
  jitter : Nat → Nat

/-- Final error of the retry loop (`clipboard_writer.rs`, lines 304-309):
a Busy last failure surfaces as `ClipboardBusy`, anything else as the generic
`Clipboard` error; with no recorded failure the message defaults. -/
def retryFinalError (last : Option ClipboardWriteFailure) : ImageError :=
  match last with
  | some f =>
    if f.kind = ClipboardFailureKind.Busy then ImageError.ClipboardBusy f.message
    else ImageError.Clipboard f.message
  | none => ImageError.Clipboard "未知错误".toList

/-- The pre-attempt backoff gate of the retry loop (`clipboard_writer.rs`,
lines 238-272): before every attempt after the first it measures the elapsed
time, breaks when the budget is already spent, computes the jittered backoff
wait and breaks instead of sleeping when `would_exceed_retry_budget`;
otherwise it sleeps.  Returns `none` for "break out of the loop", or the
elapsed time after the sleep together with the sleep log extended by the pair
(elapsed time at the check, wait slept). -/
def retrySleepGate (env : RetryEnv) (retry_delay budget max_delay attempt elapsed : Nat)
    (log : List (Nat × Nat)) : Option (Nat × List (Nat × Nat)) :=
  if 1 < attempt then
    if budget ≤ elapsed then none
    else
      let wait := compute_backoff_delay_with_jitter (max retry_delay 1) (attempt - 1)
        max_delay (env.jitter attempt)
      if would_exceed_retry_budget elapsed wait budget then none
      else some (elapsed + wait, log ++ [(elapsed, wait)])
  else some (elapsed, log)

/-- The `for attempt in 1..=retry_count` loop of `write_image_with_retry`
(`clipboard_writer.rs`, lines 237-302), as structural recursion on the number
of attempts still allowed (`fuel`).  `last` is the last recorded failure
(`last_error` and `last_kind` of the code, which are always written
together).  The second component is the log of backoff sleeps performed. -/
def writeRetryGo (env : RetryEnv) (retry_count retry_delay budget max_delay : Nat) :
    Nat → Nat → Nat → Option ClipboardWriteFailure → List (Nat × Nat) →
    Except ImageError Unit × List (Nat × Nat)
  | 0, _, _, last, log => (Except.error (retryFinalError last), log)
  | fuel + 1, attempt, elapsed, last, log =>
    match retrySleepGate env retry_delay budget max_delay attempt elapsed log with
    | none => (Except.error (retryFinalError last), log)
    | some (elapsed', log') =>
      match env.tryWrite attempt with
      | Except.ok _ => (Except.ok (), log')
      | Except.error f =>
        if f.is_retryable = false then (Except.error (retryFinalError (some f)), log')
        else if retry_count ≤ attempt then (Except.error (retryFinalError (some f)), log')
        else writeRetryGo env retry_count retry_delay budget max_delay fuel (attempt + 1)
          (elapsed' + env.attemptDuration attempt) (some f) log'

/-- Embedding of `write_image_with_retry` of `clipboard_writer.rs` (lines 219-310): prepare
buffers outside the clipboard lock, then run at most `max(retries, 1)` write
attempts.  Returns the result together with the log of backoff sleeps. -/
def write_image_with_retry (env : RetryEnv) (retries retry_delay budget max_delay : Nat) :
    Except ImageError Unit × List (Nat × Nat) :=
  match env.prepare with
  | Except.error m => (Except.error (ImageError.Clipboard m), [])
  | Except.ok _ =>
    let retry_count := max retries 1
    writeRetryGo env retry_count retry_delay budget max_delay retry_count 1 0 none []

/-- Rust `str::trim`, on strings embedded as `List Char`. -/
def trimChars (s : List Char) : List Char :=
  ((s.dropWhile Char.isWhitespace).reverse.dropWhile Char.isWhitespace).reverse

/-- Value of one character of the standard Base64 alphabet
(`base64::alphabet::STANDARD`), `none` for a character outside it. -/
def base64CharValue (c : Char) : Option Nat :=
  if 'A' ≤ c ∧ c ≤ 'Z' then some (c.toNat - 65)
  else if 'a' ≤ c ∧ c ≤ 'z' then some (c.toNat - 97 + 26)
  else if '0' ≤ c ∧ c ≤ '9' then some (c.toNat - 48 + 52)
  else if c = '+' then some 62
  else if c = '/' then some 63
  else none

/-- Decoding of one 4-character Base64 group under the `STANDARD` engine of
the `base64` crate: canonical `=` padding is allowed only in the final group,
and trailing bits beyond the encoded length must be zero. -/
def decodeBase64Chunk (isFinal : Bool) (a b c d : Char) : Option (List Nat) :=
  match base64CharValue a, base64CharValue b with
  | some va, some vb =>
    if c = '=' then
      if isFinal ∧ d = '=' ∧ vb % 16 = 0 then some [va * 4 + vb / 16] else none
    else
      match base64CharValue c with
      | some vc =>
        if d = '=' then
          if isFinal ∧ vc % 4 = 0 then some [va * 4 + vb / 16, vb % 16 * 16 + vc / 4]
          else none
        else
          match base64CharValue d with
          | some vd => some [va * 4 + vb / 16, vb % 16 * 16 + vc / 4, vc % 4 * 64 + vd]
          | none => none
      | none => none
  | _, _ => none

/-- Model of `base64::engine::general_purpose::STANDARD.decode`: the input is
consumed in groups of four characters, the length must be a multiple of four,
and padding is canonical.  Bytes are embedded as `Nat` values below 256. -/
def base64_decode : List Char → Option (List Nat)
  | [] => some []
  | a :: b :: c :: d :: rest =>
    if rest.isEmpty then decodeBase64Chunk true a b c d
    else
      match decodeBase64Chunk false a b c d, base64_decode rest with
      | some v, some w => some (v ++ w)
      | _, _ => none
  | _ => none

/-- Embedding of `estimate_base64_decoded_upper_bound_len` of `loader.rs` (lines 723-733):
`((input.trim().len() + 3) / 4) * 3`.  The `checked_add`/`checked_mul` of the
code cannot overflow for any representable string length, so the embedding
returns the value directly. -/
def estimate_base64_decoded_upper_bound_len (base64_data : List Char) : Nat :=
  ((trimChars base64_data).length + 3) / 4 * 3

/-- Rust `str::find` for a fixed pattern: index of the first occurrence. -/
def findSubstringIdx (pat : List Char) : List Char → Option Nat
  | [] => if pat.isEmpty then some 0 else none
  | c :: rest =>
    if pat.isPrefixOf (c :: rest) then some 0
    else (findSubstringIdx pat rest).map (· + 1)

/-- Embedding of `parse_base64_with_limit` of `loader.rs` (lines 735-770): a trimmed input
starting with `data:image/` must contain the `;base64,` marker; the decoded
size is estimated from the input length and checked against the limit before
any decoding; then the payload is decoded as standard Base64. -/
def parse_base64_with_limit (data : List Char) (max_file_size : Nat) :
    Except ImageError (List Nat) :=
  let normalized := trimChars data
  if "data:image/".toList.isPrefixOf normalized then
    match findSubstringIdx ";base64,".toList normalized with
    | none => Except.error (ImageError.InvalidFormat "缺少 base64 标记".toList)
    | some base64_start =>
      let base64_data := normalized.drop (base64_start + 8)
      let estimated_len := estimate_base64_decoded_upper_bound_len base64_data
      if max_file_size < estimated_len then
        Except.error (ImageError.ResourceLimit "Base64 预计解码体积过大".toList)
      else
        match base64_decode base64_data with
        | some bytes => Except.ok bytes
        | none => Except.error (ImageError.Decode "Base64 解码失败".toList)
  else
    let estimated_len := estimate_base64_decoded_upper_bound_len normalized
    if max_file_size < estimated_len then
      Except.error (ImageError.ResourceLimit "Base64 预计解码体积过大".toList)
    else
      match base64_decode normalized with
      | some bytes => Except.ok bytes
      | none => Except.error (ImageError.Decode "Base64 解码失败".toList)

/-- Embedding of `RawImageData` of `source.rs`: raw loaded bytes plus a diagnostic tag. -/
structure RawImageData where
  bytes : List Nat
  source_hint : List Char
  deriving DecidableEq, Repr

/-- Model of the `infer` crate as used by `validate_image_signature`: `some
true` when the leading magic bytes resolve to an image type, `some false` for
a recognized non-image type, `none` when no signature matches. -/
def inferImageKind (bytes : List Nat) : Option Bool :=
  if [0x89, 0x50, 0x4E, 0x47].isPrefixOf bytes then some true
  else if [0xFF, 0xD8, 0xFF].isPrefixOf bytes then some true
  else if [0x47, 0x49, 0x46, 0x38].isPrefixOf bytes then some true
  else if [0x42, 0x4D].isPrefixOf bytes then some true
  else if [0x52, 0x49, 0x46, 0x46].isPrefixOf bytes then some true
  else if [0x25, 0x50, 0x44, 0x46].isPrefixOf bytes then some false
  else if [0x50, 0x4B, 0x03, 0x04].isPrefixOf bytes then some false
  else none

/-- Embedding of `validate_image_signature` of `loader.rs` (lines 814-830). -/
def validate_image_signature (bytes : List Nat) : Except ImageError Unit :=
  if bytes.isEmpty then Except.error (ImageError.InvalidFormat "图片内容为空".toList)
  else
    match inferImageKind bytes with
    | none => Except.error (ImageError.InvalidFormat "无法识别图片类型".toList)
    | some true => Except.ok ()
    | some false => Except.error (ImageError.InvalidFormat "文件签名不是图片类型".toList)

/-- Embedding of `load_from_base64` of `loader.rs` (lines 69-91). -/
def load_from_base64 (data : List Char) (config : ImageConfig) :
    Except ImageError RawImageData :=
  match parse_base64_with_limit data config.max_file_size with
  | Except.error e => Except.error e
  | Except.ok bytes =>
    if config.max_file_size < bytes.length then
      Except.error (ImageError.ResourceLimit "Base64 解码后体积过大".toList)
    else
      match validate_image_signature bytes with
      | Except.error e => Except.error e
      | Except.ok _ => Except.ok ⟨bytes, "base64".toList⟩

/-- Embedding of `PreparedClipboardImage` of `source.rs`: an RGBA8 buffer of exactly
`width * height * 4` bytes, the invariant being enforced at construction in
`decode_and_prepare_for_clipboard`. -/
structure PreparedClipboardImage where
  width : Nat
  height : Nat
  bytes : List Nat
  deriving DecidableEq, Repr

/-- Embedding of `validate_pixel_limits` of `pipeline.rs` (lines 90-108).  The `u64`
`checked_mul` cannot overflow for `u32` dimensions, so the product is taken
directly. -/
def validate_pixel_limits (config : ImageConfig) (w h : Nat) : Except ImageError Unit :=
  if config.max_decoded_pixels < w * h then
    Except.error (ImageError.ResourceLimit "图片像素过大".toList)
  else Except.ok ()

/-- Embedding of `validate_decoded_memory_limits` of `pipeline.rs` (lines 110-130). -/
def validate_decoded_memory_limits (config : ImageConfig) (w h : Nat) :
    Except ImageError Unit :=
  if config.max_decoded_bytes < w * h * 4 then
    Except.error (ImageError.ResourceLimit "图片解码预计内存过大".toList)
  else Except.ok ()

/-- Embedding of `f64::min` on exact non-negative fractions: a fraction is a
numerator/denominator pair of naturals, and `a/b ≤ c/d` is compared by cross
multiplication.  `fracMin x y` returns `x` exactly when `x ≤ y`, matching the
selection made by `f64::min` on the (idealized, exactly computed) values. -/
def fracMin (x y : Nat × Nat) : Nat × Nat :=
  if x.1 * y.2 ≤ y.1 * x.2 then x else y

/-- The scale factor of `maybe_downscale_for_clipboard` (`pipeline.rs`, lines
157-161): `dimension_scale.min(pixel_scale).min(1.0)` where
`dimension_scale = min(max_dim / width, max_dim / height)`.  The `f64`
arithmetic is embedded as exact fraction arithmetic; the pair `(pn, pd)`
stands for the value `(clipboard_target_pixels / source_pixels).sqrt()`
computed by the code in `f64`, passed in as a parameter and constrained in
the theorems by the defining property of the square root. -/
def downscaleScaleFrac (config : ImageConfig) (w h pn pd : Nat) : Nat × Nat :=
  let dimension_scale := fracMin (config.clipboard_max_dimension, w)
    (config.clipboard_max_dimension, h)
  fracMin (fracMin dimension_scale (pn, pd)) (1, 1)

/-- Embedding of `maybe_downscale_for_clipboard` of `pipeline.rs` (lines 135-194), at the
level of image dimensions: when adaptive resize is enabled and the image is
over the dimension cap or the pixel target, both axes are scaled by the
single factor `downscaleScaleFrac`, floored (`Nat` division is exactly the
`.floor()` of the exact product), with a 1-pixel-per-axis minimum applied by
`.max(1)`.  The `scale <= 0.0` internal-consistency check of the code becomes
a zero test on the scale's numerator.  The resize itself (convolution
resampler with `resize_exact` fallback) preserves exactly these target
dimensions. -/
def maybe_downscale_for_clipboard (config : ImageConfig) (w h pn pd : Nat) :
    Except ImageError (Nat × Nat) :=
  if config.adaptive_resize = false then Except.ok (w, h)
  else
    let over_dimension :=
      config.clipboard_max_dimension < w ∨ config.clipboard_max_dimension < h
    let over_pixels := config.clipboard_target_pixels < w * h
    if ¬ over_dimension ∧ ¬ over_pixels then Except.ok (w, h)
    else
      let scale := downscaleScaleFrac config w h pn pd
      if scale.1 = 0 then
        Except.error (ImageError.ResourceLimit "缩放比例计算异常".toList)
      else
        Except.ok (max (w * scale.1 / scale.2) 1, max (h * scale.1 / scale.2) 1)

/-- Embedding of `decode_and_prepare_for_clipboard` of `pipeline.rs` (lines 25-73), at the
level of the decoded dimensions `w × h`: pixel and memory limits are
validated (the code validates the header dimensions and then the actual
decoded dimensions; at the dimension level the two rounds coincide, so each
validation appears once), the image is adaptively downscaled, and the RGBA
conversion
(embedded as the unconstrained function `toRgbaBytes`, the buffer
`optimized.to_rgba8().into_raw()` of the code) must produce exactly
`width * height * 4` bytes or the function fails with a `Decode` error. -/
def decode_and_prepare_for_clipboard (config : ImageConfig) (w h pn pd : Nat)
    (toRgbaBytes : Nat → Nat → List Nat) : Except ImageError PreparedClipboardImage :=
  match validate_pixel_limits config w h with
  | Except.error e => Except.error e
  | Except.ok _ =>
    match validate_decoded_memory_limits config w h with
    | Except.error e => Except.error e
    | Except.ok _ =>
      match maybe_downscale_for_clipboard config w h pn pd with
      | Except.error e => Except.error e
      | Except.ok (width, height) =>
        let bytes := toRgbaBytes width height
        if bytes.length ≠ width * height * 4 then
          Except.error (ImageError.Decode "解码后像素数据长度异常".toList)
        else Except.ok ⟨width, height, bytes⟩

/-- Concrete configuration for the C1 witness. -/
def witnessConfigResize : ImageConfig :=
  { ImageConfig.default with clipboard_max_dimension := 4, clipboard_target_pixels := 8 }

/-- Concrete RGBA conversion for the C1 witness, producing the buffer length
the `image` crate produces. -/
def witnessRgbaBytes (wi hi : Nat) : List Nat := List.replicate (wi * hi * 4) 0

/-- The percentage computation of the `emit_progress` closure in
`service.rs` (`process_url_with_progress`, lines 195-239): 100 for the
terminal `completed` status, otherwise `downloaded.saturating_mul(100) /
total` capped at 100, with a total of 0 or an unknown total reported as 0. -/
def computeProgressPercent (status : List Char) (downloaded : Nat) (total : Option Nat) :
    Nat :=
  if status = "completed".toList then 100
  else
    match total with
    | some 0 => 0
    | none => 0
    | some total_bytes => min (satMul64 downloaded 100 / total_bytes) 100

/-- Embedding of `set_advanced_config` of `handler.rs` (lines 114-162), as a function from
the stored configuration to the new configuration paired with the error, if
any: each argument is range-checked in order and the configuration is only
mutated after every check passes. -/
def set_advanced_config (config : ImageConfig)
    (allow_private_network resolve_dns_for_url_safety : Bool)
    (max_decoded_bytes connect_timeout stream_first_byte_timeout_ms
      stream_chunk_timeout_ms clipboard_retry_max_total_ms
      clipboard_retry_max_delay_ms : Nat) : ImageConfig × Option ImageError :=
  if max_decoded_bytes < 8 * 1024 * 1024 then
    (config, some (ImageError.InvalidFormat "max_decoded_bytes 不能小于 8MB".toList))
  else if ¬ (1 ≤ connect_timeout ∧ connect_timeout ≤ 120) then
    (config, some (ImageError.InvalidFormat "connect_timeout 必须在 1~120 秒之间".toList))
  else if ¬ (500 ≤ stream_first_byte_timeout_ms ∧ stream_first_byte_timeout_ms ≤ 120000) then
    (config, some (ImageError.InvalidFormat
      "stream_first_byte_timeout_ms 必须在 500~120000 毫秒之间".toList))
  else if ¬ (500 ≤ stream_chunk_timeout_ms ∧ stream_chunk_timeout_ms ≤ 120000) then
    (config, some (ImageError.InvalidFormat
      "stream_chunk_timeout_ms 必须在 500~120000 毫秒之间".toList))
  else if ¬ (200 ≤ clipboard_retry_max_total_ms ∧ clipboard_retry_max_total_ms ≤ 30000) then
    (config, some (ImageError.InvalidFormat
      "clipboard_retry_max_total_ms 必须在 200~30000 毫秒之间".toList))
  else if ¬ (10 ≤ clipboard_retry_max_delay_ms ∧ clipboard_retry_max_delay_ms ≤ 5000) then
    (config, some (ImageError.InvalidFormat
      "clipboard_retry_max_delay_ms 必须在 10~5000 毫秒之间".toList))
  else if clipboard_retry_max_total_ms < clipboard_retry_max_delay_ms then
    (config, some (ImageError.InvalidFormat
      "clipboard_retry_max_delay_ms 不能大于 clipboard_retry_max_total_ms".toList))
  else
    ({ config with
        allow_private_network := allow_private_network
        resolve_dns_for_url_safety := resolve_dns_for_url_safety
        max_decoded_bytes := max_decoded_bytes
        connect_timeout := connect_timeout
        stream_first_byte_timeout_ms := stream_first_byte_timeout_ms
        stream_chunk_timeout_ms := stream_chunk_timeout_ms
        clipboard_retry_max_total_ms := clipboard_retry_max_total_ms
        clipboard_retry_max_delay_ms := clipboard_retry_max_delay_ms }, none)

/-- Modelled from the spec's documented ranges: the conjunction of every
numeric range `set_advanced_config` is documented to validate. -/
def advancedArgsInRange (max_decoded_bytes connect_timeout first_byte_ms chunk_ms
    retry_total_ms retry_max_delay_ms : Nat) : Prop :=
  8 * 1024 * 1024 ≤ max_decoded_bytes ∧
  1 ≤ connect_timeout ∧ connect_timeout ≤ 120 ∧
  500 ≤ first_byte_ms ∧ first_byte_ms ≤ 120000 ∧
  500 ≤ chunk_ms ∧ chunk_ms ≤ 120000 ∧
  200 ≤ retry_total_ms ∧ retry_total_ms ≤ 30000 ∧
  10 ≤ retry_max_delay_ms ∧ retry_max_delay_ms ≤ 5000 ∧
  retry_max_delay_ms ≤ retry_total_ms

/-- Parsed URL model (the fields of `reqwest::Url` the loader reads): scheme
and host are lowercased by the parser, the explicit port, the path (an empty
path normalizes to `/`), and the raw query and fragment. -/
structure ParsedUrl where
  scheme : List Char
  host : List Char
  port : Option Nat
  path : List Char
  query : Option (List Char)
  fragment : Option (List Char)
  deriving DecidableEq, Repr

/-- Decimal number parser for the port component. -/
def parseNatDigits (s : List Char) : Option Nat :=
  if s.isEmpty then none
  else if s.all Char.isDigit then
    some (s.foldl (fun acc c => acc * 10 + (c.toNat - 48)) 0)
  else none

/-- Splits `path?query#fragment` after the authority; an empty path becomes
`/` as `reqwest::Url` normalizes it. -/
def parseAfterAuthority (s : List Char) :
    List Char × Option (List Char) × Option (List Char) :=
  let beforeFrag := s.takeWhile (fun c => c ≠ '#')
  let fragPart := s.dropWhile (fun c => c ≠ '#')
  let frag : Option (List Char) := match fragPart with | [] => none | _ :: f => some f
  let path := beforeFrag.takeWhile (fun c => c ≠ '?')
  let queryPart := beforeFrag.dropWhile (fun c => c ≠ '?')
  let query : Option (List Char) := match queryPart with | [] => none | _ :: q => some q
  (if path.isEmpty then "/".toList else path, query, frag)

/-- Model of `reqwest::Url::parse` for the `scheme://host[:port]` URLs the
loader handles: scheme and host are lowercased, the host must be nonempty,
and an explicit port must be numeric. -/
def parseUrl (s : List Char) : Option ParsedUrl :=
  match findSubstringIdx "://".toList s with
  | none => none
  | some i =>
    let scheme := (s.take i).map Char.toLower
    let rest := s.drop (i + 3)
    if scheme.isEmpty then none
    else
      let authority := rest.takeWhile (fun c => ¬ (c = '/' ∨ c = '?' ∨ c = '#'))
      let afterAuthority := rest.dropWhile (fun c => ¬ (c = '/' ∨ c = '?' ∨ c = '#'))
      let host := (authority.takeWhile (fun c => c ≠ ':')).map Char.toLower
      let portPart := authority.dropWhile (fun c => c ≠ ':')
      if host.isEmpty then none
      else
        match parseAfterAuthority afterAuthority with
        | (path, query, frag) =>
          match portPart with
          | [] => some ⟨scheme, host, none, path, query, frag⟩
          | _ :: digits =>
            match parseNatDigits digits with
            | none => none
            | some p => some ⟨scheme, host, some p, path, query, frag⟩

/-- Embedding of `redact_url_for_log` of `loader.rs` (lines 560-570): scheme, host,
explicit port and path only — query and fragment are stripped. -/
def redact_url_for_log (url : List Char) : List Char :=
  match parseUrl url with
  | none => "<invalid-url>".toList
  | some u =>
    u.scheme ++ "://".toList ++ u.host ++
      (match u.port with
       | some p => ':' :: (Nat.repr p).toList
       | none => []) ++ u.path

/-- IP address model.  The loader parses URL hosts with
`host.parse::<IpAddr>()`; a URL host is a dotted-quad IPv4 literal or a
hostname (IPv6 literals appear only in bracket syntax, which this model maps
to `none` like any non-IPv4 host). -/
inductive IpAddr where
  | v4 (a b c d : Nat)
  deriving DecidableEq, Repr

/-- One octet of a dotted-quad IPv4 literal: nonempty, all digits, no leading
zero, at most 255 — the `std` parser's rules. -/
def parseIpv4Octet (s : List Char) : Option Nat :=
  if s.isEmpty then none
  else if ¬ s.all Char.isDigit then none
  else if 1 < s.length ∧ s.headI = '0' then none
  else
    let v := s.foldl (fun acc c => acc * 10 + (c.toNat - 48)) 0
    if v ≤ 255 then some v else none

/-- Splits a character list on a separator character. -/
def splitOnChar (sep : Char) : List Char → List (List Char)
  | [] => [[]]
  | x :: xs =>
    match splitOnChar sep xs with
    | [] => [[]]
    | g :: gs => if x = sep then [] :: g :: gs else (x :: g) :: gs

/-- Model of `host.parse::<IpAddr>()` for IPv4 dotted-quad literals. -/
def parseIpv4 (s : List Char) : Option IpAddr :=
  match (splitOnChar '.' s).mapM parseIpv4Octet with
  | some [a, b, c, d] => some (IpAddr.v4 a b c d)
  | _ => none

/-- Embedding of `is_private_or_local_ip` of `loader.rs` (lines 696-715), for IPv4:
private, loopback, link-local, broadcast, documentation, unspecified or
multicast ranges, plus `0.0.0.0/8` and the carrier-grade NAT range
`100.64.0.0/10`. -/
def is_private_or_local_ip (ip : IpAddr) : Bool :=
  match ip with
  | IpAddr.v4 a b c d =>
    (a = 10 ∨ (a = 172 ∧ 16 ≤ b ∧ b ≤ 31) ∨ (a = 192 ∧ b = 168)) ∨
    a = 127 ∨
    (a = 169 ∧ b = 254) ∨
    (a = 255 ∧ b = 255 ∧ c = 255 ∧ d = 255) ∨
    ((a = 192 ∧ b = 0 ∧ c = 2) ∨ (a = 198 ∧ b = 51 ∧ c = 100) ∨
      (a = 203 ∧ b = 0 ∧ c = 113)) ∨
    (a = 0 ∧ b = 0 ∧ c = 0 ∧ d = 0) ∨
    (224 ≤ a ∧ a ≤ 239) ∨
    a = 0 ∨
    (a = 100 ∧ Nat.land b 192 = 64)

/-- Embedding of `is_local_hostname` of `loader.rs` (lines 691-693). -/
def is_local_hostname (host : List Char) : Bool :=
  host.map Char.toLower = "localhost".toList ∨
    host.map Char.toLower = "localhost.".toList ∨
    ".local".toList.isSuffixOf host

/-- The external DNS resolution (`resolve_public_socket_addrs`, an async
`tokio` lookup that already rejects private results), as an abstract
environment parameter. -/
abbrev DnsResolver : Type := List Char → Nat → Except ImageError (List IpAddr)

/-- Embedding of `Url::port_or_known_default` for the HTTP schemes. -/
def defaultPort (scheme : List Char) : Nat :=
  if scheme = "https".toList then 443 else 80

/-- Embedding of `validate_url_safety` of `loader.rs` (lines 643-688): only HTTP(S)
schemes; everything is allowed when `allow_private_network` is set; local
hostnames and private/local IP literals are rejected; otherwise, when
`resolve_dns_for_url_safety` is set, the host must resolve to at least one
public address. -/
def validate_url_safety (resolver : DnsResolver) (url : List Char)
    (config : ImageConfig) : Except ImageError Unit :=
  match parseUrl url with
  | none => Except.error (ImageError.InvalidFormat "URL 格式错误".toList)
  | some parsed =>
    if parsed.scheme ≠ "http".toList ∧ parsed.scheme ≠ "https".toList then
      Except.error (ImageError.InvalidFormat "仅支持 HTTP/HTTPS".toList)
    else if config.allow_private_network then Except.ok ()
    else if is_local_hostname parsed.host then
      Except.error (ImageError.InvalidFormat "禁止访问本地网络地址".toList)
    else
      match parseIpv4 parsed.host with
      | some ip =>
        if is_private_or_local_ip ip then
          Except.error (ImageError.InvalidFormat "禁止访问内网 IP".toList)
        else Except.ok ()
      | none =>
        if config.resolve_dns_for_url_safety then
          match resolver parsed.host (parsed.port.getD (defaultPort parsed.scheme)) with
          | Except.error e => Except.error e
          | Except.ok addrs =>
            if addrs.isEmpty then
              Except.error (ImageError.InvalidFormat "URL 未解析到有效地址".toList)
            else Except.ok ()
        else Except.ok ()

/-- Embedding of `CachedUrlDownload` of `handler.rs`: creation instant (embedded as
seconds on an abstract clock) and the cached bytes. -/
structure CachedUrlDownload where
  created_at : Nat
  bytes : List Nat
  deriving DecidableEq, Repr

/-- The process-wide download cache (`HashMap<String, CachedUrlDownload>`),
embedded as an association list; the list order stands in for the map's
iteration order. -/
abbrev DownloadCache : Type := List (List Char × CachedUrlDownload)

/-- Embedding of `DOWNLOAD_CACHE_TTL_SECS` of `loader.rs`. -/
def DOWNLOAD_CACHE_TTL_SECS : Nat := 25

/-- Embedding of `DOWNLOAD_CACHE_MAX_ENTRIES` of `loader.rs`. -/
def DOWNLOAD_CACHE_MAX_ENTRIES : Nat := 24

/-- The `cache.retain(|_, item| item.created_at.elapsed() <= TTL)` purge run
by both `get_cached_download` and `store_download_cache`; `now` is the
current instant of the abstract clock. -/
def cacheRetainFresh (now : Nat) (c : DownloadCache) : DownloadCache :=
  c.filter (fun e => now - e.2.created_at ≤ DOWNLOAD_CACHE_TTL_SECS)

/-- Embedding of `HashMap::get` on the association list. -/
def cacheLookup (c : DownloadCache) (url : List Char) : Option CachedUrlDownload :=
  (c.find? (fun e => e.1 == url)).map (fun e => e.2)

/-- Embedding of `get_cached_download` of `loader.rs` (lines 572-580): purge stale
entries, then look the full URL string up.  Returns the purged cache
(the mutated state) together with the cached bytes, if any. -/
def get_cached_download (now : Nat) (c : DownloadCache) (url : List Char) :
    DownloadCache × Option (List Nat) :=
  let fresh := cacheRetainFresh now c
  (fresh, (cacheLookup fresh url).map (fun item => item.bytes))

/-- Embedding of `HashMap::insert`: replace the entry with this key, or add one. -/
def cacheInsert (c : DownloadCache) (url : List Char) (item : CachedUrlDownload) :
    DownloadCache :=
  (c.eraseP (fun e => e.1 == url)) ++ [(url, item)]

/-- Embedding of `cache.iter().min_by_key(|(_, item)| item.created_at)`: the first entry
(in iteration order) with the minimal creation time. -/
def minByCreated : DownloadCache → Option (List Char × CachedUrlDownload)
  | [] => none
  | x :: xs =>
    match minByCreated xs with
    | none => some x
    | some m => if x.2.created_at ≤ m.2.created_at then some x else some m

/-- Embedding of `store_download_cache` of `loader.rs` (lines 582-611): empty results are
rejected; stale entries are purged; at `DOWNLOAD_CACHE_MAX_ENTRIES` or more
entries the entry with the oldest creation time is removed; the bytes are
inserted under the full URL string. -/
def store_download_cache (now : Nat) (c : DownloadCache) (url : List Char)
    (bytes : List Nat) : DownloadCache :=
  if bytes.isEmpty then c
  else
    let fresh := cacheRetainFresh now c
    let pruned :=
      if DOWNLOAD_CACHE_MAX_ENTRIES ≤ fresh.length then
        match minByCreated fresh with
        | some oldest => fresh.eraseP (fun e => e.1 == oldest.1)
        | none => fresh
      else fresh
    cacheInsert pruned url ⟨now, bytes⟩

/-- C6 left URL: a download URL carrying a query string. -/
def c6UrlWithQuery : List Char := "http://example.com/a.png?token=1".toList

/-- C6 right URL: the same URL with the query stripped. -/
def c6UrlStripped : List Char := "http://example.com/a.png".toList

theorem backoffCapped_le_u64max (base attempt maxd : Nat) :
    backoffCapped base attempt maxd ≤ U64_MAX := by
  unfold backoffCapped satMul64
  exact le_trans (min_le_left _ _) (min_le_right _ _)

theorem backoffCapped_le_cap (base attempt maxd : Nat) :
    backoffCapped base attempt maxd ≤ max maxd base :=
  min_le_right _ _

theorem backoffCapped_mono (base attempt maxd : Nat) :
    backoffCapped base attempt maxd ≤ backoffCapped base (attempt + 1) maxd := by
  unfold backoffCapped satMul64
  refine min_le_min (min_le_min ?_ le_rfl) le_rfl
  refine Nat.mul_le_mul_left _ (Nat.pow_le_pow_right (by norm_num) ?_)
  exact min_le_min (Nat.sub_le_sub_right (Nat.le_succ _) 1) le_rfl

theorem compute_backoff_ge_capped (base attempt maxd j : Nat) :
    backoffCapped base attempt maxd ≤ compute_backoff_delay_with_jitter base attempt maxd j := by
  unfold compute_backoff_delay_with_jitter satAdd64
  exact le_min (Nat.le_add_right _ _) (backoffCapped_le_u64max base attempt maxd)

theorem compute_backoff_le_capped_plus_jitter (base attempt maxd j : Nat) :
    compute_backoff_delay_with_jitter base attempt maxd j ≤
      backoffCapped base attempt maxd + max (backoffCapped base attempt maxd / 3) 1 := by
  unfold compute_backoff_delay_with_jitter satAdd64
  refine le_trans (min_le_left _ _) (Nat.add_le_add_left ?_ _)
  exact le_trans (Nat.le_of_lt_succ (Nat.mod_lt _ (Nat.succ_pos _))) le_rfl

/-- C4 counterexample: the claim bounds the delay by `cap + cap/3` with the cap
being the configured maximum delay, but when the base delay exceeds the
maximum delay the code caps at `max(max_delay, base)` instead: with base 1000,
attempt 1, max delay 10 and jitter draw 333 the delay is 1333, far above
`10 + 10/3`. -/
theorem compute_backoff_exceeds_claimed_cap_bound :
    compute_backoff_delay_with_jitter 1000 1 10 333 = 1333 ∧
      ¬ compute_backoff_delay_with_jitter 1000 1 10 333 ≤ 10 + 10 / 3 := by
  constructor
  · decide
  · decide

/-- C4 (amended): for every base delay, attempt, maximum delay and jitter draw,
the delay returned by `compute_backoff_delay_with_jitter` is at least the
capped exponential value `min(base·2^min(attempt-1, 8), max(max_delay, base))`
(the exponent saturates at 8 and the cap is `max(max_delay, base)`, not
`max_delay`); it is at most that capped value plus `max(capped/3, 1)`; the
capped value is monotonically non-decreasing in the attempt number; and the
delay never exceeds `C + max(C/3, 1)` where `C = max(max_delay, base)`. -/
theorem compute_backoff_bounds (base attempt maxd j : Nat) :
    backoffCapped base attempt maxd ≤ compute_backoff_delay_with_jitter base attempt maxd j ∧
    compute_backoff_delay_with_jitter base attempt maxd j ≤
      backoffCapped base attempt maxd + max (backoffCapped base attempt maxd / 3) 1 ∧
    backoffCapped base attempt maxd ≤ backoffCapped base (attempt + 1) maxd ∧
    compute_backoff_delay_with_jitter base attempt maxd j ≤
      max maxd base + max (max maxd base / 3) 1 := by
  refine ⟨compute_backoff_ge_capped base attempt maxd j,
    compute_backoff_le_capped_plus_jitter base attempt maxd j,
    backoffCapped_mono base attempt maxd, ?_⟩
  refine le_trans (compute_backoff_le_capped_plus_jitter base attempt maxd j) ?_
  have hc := backoffCapped_le_cap base attempt maxd
  exact Nat.add_le_add hc (max_le_max (Nat.div_le_div_right hc) le_rfl)

theorem retrySleepGate_log_bound (env : RetryEnv) (rd budget md attempt elapsed : Nat)
    (log : List (Nat × Nat)) (e' : Nat) (log' : List (Nat × Nat))
    (h : retrySleepGate env rd budget md attempt elapsed log = some (e', log'))
    (hlog : ∀ p ∈ log, p.1 + p.2 ≤ budget) :
    ∀ p ∈ log', p.1 + p.2 ≤ budget := by
  unfold retrySleepGate at h
  split at h
  · split at h
    · exact absurd h (by simp)
    · simp only at h
      split at h
      · exact absurd h (by simp)
      · rename_i hgate
        simp only [would_exceed_retry_budget, decide_eq_true_eq, not_lt] at hgate
        obtain ⟨-, rfl⟩ := Option.some.injEq _ _ ▸ (Prod.mk.injEq _ _ _ _ ▸ Option.some.inj h)
        intro p hp
        rcases List.mem_append.mp hp with hp | hp
        · exact hlog p hp
        · simp only [List.mem_singleton] at hp
          subst hp
          exact hgate
  · obtain ⟨-, rfl⟩ := Option.some.injEq _ _ ▸ (Prod.mk.injEq _ _ _ _ ▸ Option.some.inj h)
    exact hlog

theorem writeRetryGo_log_bound (env : RetryEnv) (rc rd budget md : Nat) :
    ∀ fuel attempt elapsed last log, (∀ p ∈ log, p.1 + p.2 ≤ budget) →
      ∀ p ∈ (writeRetryGo env rc rd budget md fuel attempt elapsed last log).2,
        p.1 + p.2 ≤ budget := by
  intro fuel
  induction fuel with
  | zero => intro attempt elapsed last log hlog; exact hlog
  | succ n ih =>
    intro attempt elapsed last log hlog
    unfold writeRetryGo
    split
    · exact hlog
    · rename_i e' log' hgate
      have hlog' := retrySleepGate_log_bound env rd budget md attempt elapsed log e' log'
        hgate hlog
      split
      · exact hlog'
      · split
        · exact hlog'
        · split
          · exact hlog'
          · exact ih (attempt + 1) (e' + env.attemptDuration attempt) _ log' hlog'

theorem writeRetryGo_busy (env : RetryEnv) (rc rd budget md : Nat)
    (hbusy : ∀ n, ∃ m, env.tryWrite n =
      Except.error ⟨ClipboardFailureKind.Busy, m⟩) :
    ∀ fuel attempt elapsed last log,
      ((attempt = 1 ∧ last = none ∧ 1 ≤ fuel) ∨
        (∃ f, last = some f ∧ f.kind = ClipboardFailureKind.Busy)) →
      ∃ m, (writeRetryGo env rc rd budget md fuel attempt elapsed last log).1 =
        Except.error (ImageError.ClipboardBusy m) := by
  intro fuel
  induction fuel with
  | zero =>
    intro attempt elapsed last log hcase
    rcases hcase with ⟨-, -, hfuel⟩ | ⟨f, rfl, hkind⟩
    · omega
    · exact ⟨f.message, by simp [writeRetryGo, retryFinalError, hkind]⟩
  | succ n ih =>
    intro attempt elapsed last log hcase
    obtain ⟨m, hw⟩ := hbusy attempt
    unfold writeRetryGo
    split
    · rename_i hgate
      rcases hcase with ⟨hatt, -, -⟩ | ⟨f, rfl, hkind⟩
      · subst hatt
        simp [retrySleepGate] at hgate
      · exact ⟨f.message, by simp [retryFinalError, hkind]⟩
    · rename_i e' log' hgate
      rw [hw]
      simp only [ClipboardWriteFailure.is_retryable]
      split
      · simp_all
      · split
        · exact ⟨m, by simp [retryFinalError]⟩
        · exact ih (attempt + 1) (e' + env.attemptDuration attempt)
            (some ⟨ClipboardFailureKind.Busy, m⟩) log'
            (Or.inr ⟨⟨ClipboardFailureKind.Busy, m⟩, rfl, rfl⟩)

/-- C2: the clipboard retry loop never sleeps past the total budget — every
backoff sleep it performs happens at an elapsed time `e` with computed wait
`w` satisfying `e + w ≤ clipboard_retry_max_total_ms` (the loop checks
`would_exceed_retry_budget` and breaks instead of sleeping) — and when buffer
preparation succeeds and every write attempt fails with a Busy-classified
failure, the surfaced error is the distinct `ClipboardBusy` kind, not the
generic `Clipboard` error. -/
theorem write_retry_budget_respected_and_busy_surfaced
    (env : RetryEnv) (retries retry_delay budget max_delay : Nat) :
    (∀ p ∈ (write_image_with_retry env retries retry_delay budget max_delay).2,
        p.1 + p.2 ≤ budget) ∧
    ((env.prepare = Except.ok () ∧
        ∀ n, ∃ m, env.tryWrite n = Except.error ⟨ClipboardFailureKind.Busy, m⟩) →
      ∃ m, (write_image_with_retry env retries retry_delay budget max_delay).1 =
        Except.error (ImageError.ClipboardBusy m)) := by
  constructor
  · unfold write_image_with_retry
    split
    · simp
    · exact writeRetryGo_log_bound env (max retries 1) retry_delay budget max_delay
        (max retries 1) 1 0 none [] (by simp)
  · rintro ⟨hprep, hbusy⟩
    unfold write_image_with_retry
    rw [hprep]
    exact writeRetryGo_busy env (max retries 1) retry_delay budget max_delay hbusy
      (max retries 1) 1 0 none [] (Or.inl ⟨rfl, rfl, le_max_right _ 1⟩)

/-- C9: `write_image_with_retry` uses `max(clipboard_retries, 1)` attempts, so
it behaves identically for `retries` and `max(retries, 1)` — in particular a
zero retry setting still performs one write attempt, and a first-attempt
success returns `Ok` rather than failing immediately. -/
theorem write_retry_at_least_one_attempt
    (env : RetryEnv) (retry_delay budget max_delay : Nat) :
    (∀ retries, write_image_with_retry env retries retry_delay budget max_delay =
        write_image_with_retry env (max retries 1) retry_delay budget max_delay) ∧
    ((env.prepare = Except.ok () ∧ env.tryWrite 1 = Except.ok ()) →
      (write_image_with_retry env 0 retry_delay budget max_delay).1 = Except.ok ()) := by
  constructor
  · intro retries
    unfold write_image_with_retry
    rw [max_assoc, max_self]
  · rintro ⟨hprep, hwrite⟩
    simp [write_image_with_retry, hprep, writeRetryGo, retrySleepGate, hwrite]

theorem decodeBase64Chunk_length (isFinal : Bool) (a b c d : Char) (v : List Nat)
    (h : decodeBase64Chunk isFinal a b c d = some v) : v.length ≤ 3 := by
  unfold decodeBase64Chunk at h
  repeat' split at h
  all_goals (first
    | exact Option.noConfusion h
    | (injection h with h2; subst h2; simp))

theorem base64_decode_length (s : List Char) :
    ∀ bs, base64_decode s = some bs → bs.length ≤ (s.length + 3) / 4 * 3 := by
  induction s using base64_decode.induct with
  | case1 => intro bs h; simp [base64_decode] at h; simp [← h]
  | case2 a b c d rest hrest =>
    intro bs h
    unfold base64_decode at h
    rw [if_pos hrest] at h
    have h3 := decodeBase64Chunk_length true a b c d bs h
    have h4 : rest.length = 0 := by simpa using List.isEmpty_iff.mp hrest
    simp only [List.length_cons, h4]
    omega
  | case3 a b c d rest hrest w v hv hw ih =>
    intro bs h
    unfold base64_decode at h
    rw [if_neg hrest, hw, hv] at h
    simp only [Option.some.injEq] at h
    subst h
    have h1 := decodeBase64Chunk_length false a b c d w hw
    have h2 := ih v hv
    simp only [List.length_append, List.length_cons]
    have h5 : (rest.length + 4 + 3) / 4 * 3 = 3 + (rest.length + 3) / 4 * 3 := by omega
    omega
  | case4 a b c d rest hrest hcontra ih =>
    intro bs h
    unfold base64_decode at h
    rw [if_neg hrest] at h
    split at h
    · rename_i w v hw hv
      exact absurd trivial (by exact (hcontra w v hw hv).elim)
    · exact absurd h (by simp)
  | case5 t h1 h2 =>
    intro bs h
    unfold base64_decode at h
    split at h
    · exact absurd rfl (h1 ·)
    · rename_i a b c d rest
      exact absurd rfl (h2 a b c d rest ·)
    · exact absurd h (by simp)

theorem base64CharValue_not_ws (c : Char) (v : Nat)
    (h : base64CharValue c = some v) : c.isWhitespace = false := by
  by_contra hw
  rw [Bool.not_eq_false] at hw
  have hc : ((c = ' ' ∨ c = '\t') ∨ c = '\r') ∨ c = '\n' := by
    simpa [Char.isWhitespace] using hw
  rcases hc with ((rfl | rfl) | rfl) | rfl
  · exact Option.noConfusion ((by decide : base64CharValue ' ' = none) ▸ h)
  · exact Option.noConfusion ((by decide : base64CharValue '\t' = none) ▸ h)
  · exact Option.noConfusion ((by decide : base64CharValue '\r' = none) ▸ h)
  · exact Option.noConfusion ((by decide : base64CharValue '\n' = none) ▸ h)

theorem eq_pad_not_ws (c : Char) (h : c = '=') : c.isWhitespace = false := by
  subst h; decide

theorem pad_cond_not_ws (fin : Bool) (d : Char) (n : Nat)
    (h : fin = true ∧ d = '=' ∧ n % 16 = 0) : d.isWhitespace = false :=
  eq_pad_not_ws d h.2.1

theorem decodeBase64Chunk_not_ws (isFinal : Bool) (a b c d : Char) (v : List Nat)
    (h : decodeBase64Chunk isFinal a b c d = some v) :
    a.isWhitespace = false ∧ b.isWhitespace = false ∧
      c.isWhitespace = false ∧ d.isWhitespace = false := by
  unfold decodeBase64Chunk at h
  repeat' split at h
  all_goals (try exact Option.noConfusion h)
  all_goals refine ⟨?_, ?_, ?_, ?_⟩
  all_goals solve_by_elim [base64CharValue_not_ws, eq_pad_not_ws, pad_cond_not_ws]

theorem base64_decode_not_ws (s : List Char) :
    ∀ bs, base64_decode s = some bs → ∀ c ∈ s, c.isWhitespace = false := by
  induction s using base64_decode.induct with
  | case1 => intro bs _ c hc; simp at hc
  | case2 a b c d rest hrest =>
    intro bs h e he
    unfold base64_decode at h
    rw [if_pos hrest] at h
    obtain ⟨h1, h2, h3, h4⟩ := decodeBase64Chunk_not_ws true a b c d bs h
    have hnil : rest = [] := List.isEmpty_iff.mp hrest
    subst hnil
    simp only [List.mem_cons, List.not_mem_nil, or_false] at he
    rcases he with rfl | rfl | rfl | rfl <;> assumption
  | case3 a b c d rest hrest w v hv hw ih =>
    intro bs h e he
    obtain ⟨h1, h2, h3, h4⟩ := decodeBase64Chunk_not_ws false a b c d w hw
    simp only [List.mem_cons] at he
    rcases he with rfl | rfl | rfl | rfl | he
    · exact h1
    · exact h2
    · exact h3
    · exact h4
    · exact ih v hv e he
  | case4 a b c d rest hrest hcontra ih =>
    intro bs h
    unfold base64_decode at h
    rw [if_neg hrest] at h
    split at h
    · rename_i w v hw hv
      exact absurd trivial (by exact (hcontra w v hw hv).elim)
    · exact absurd h (by simp)
  | case5 t h1 h2 =>
    intro bs h
    unfold base64_decode at h
    split at h
    · exact absurd rfl (h1 ·)
    · rename_i a b c d rest
      exact absurd rfl (h2 a b c d rest ·)
    · exact absurd h (by simp)

theorem dropWhile_eq_self_of_not (p : Char → Bool) (s : List Char)
    (h : ∀ c ∈ s, p c = false) : s.dropWhile p = s := by
  cases s with
  | nil => rfl
  | cons c rest => simp [List.dropWhile_cons, h c (by simp)]

theorem trimChars_eq_self (s : List Char) (h : ∀ c ∈ s, c.isWhitespace = false) :
    trimChars s = s := by
  unfold trimChars
  rw [dropWhile_eq_self_of_not _ s h,
    dropWhile_eq_self_of_not _ s.reverse (fun c hc => h c (List.mem_reverse.mp hc))]
  exact List.reverse_reverse s

/-- C3: when the (trimmed) Base64 payload decodes to `bs` bytes, the
pre-decode estimate `((trimmed_length + 3) / 4) * 3` is at least `bs.length`;
and whenever the true decoded size exceeds `max_file_size`, both the plain
path and the `data:image/...;base64,` path of `parse_base64_with_limit`
return the `ResourceLimit` error produced by the pre-decode check, i.e. the
limit is enforced before `decode()` is reached. -/
theorem base64_estimate_conservative (s : List Char) (maxfs : Nat) (bs : List Nat)
    (hdec : base64_decode (trimChars s) = some bs) :
    bs.length ≤ estimate_base64_decoded_upper_bound_len s ∧
    (maxfs < bs.length →
      ¬ "data:image/".toList.isPrefixOf (trimChars s) →
      parse_base64_with_limit s maxfs =
        Except.error (ImageError.ResourceLimit "Base64 预计解码体积过大".toList)) ∧
    (∀ i bs2, findSubstringIdx ";base64,".toList (trimChars s) = some i →
      base64_decode (trimChars ((trimChars s).drop (i + 8))) = some bs2 →
      maxfs < bs2.length →
      "data:image/".toList.isPrefixOf (trimChars s) →
      parse_base64_with_limit s maxfs =
        Except.error (ImageError.ResourceLimit "Base64 预计解码体积过大".toList)) := by
  have hidem : trimChars (trimChars s) = trimChars s :=
    trimChars_eq_self (trimChars s) (base64_decode_not_ws (trimChars s) bs hdec)
  have hcore : bs.length ≤ ((trimChars s).length + 3) / 4 * 3 :=
    base64_decode_length (trimChars s) bs hdec
  refine ⟨?_, ?_, ?_⟩
  · unfold estimate_base64_decoded_upper_bound_len
    exact hcore
  · intro hover hpre
    unfold parse_base64_with_limit
    rw [if_neg hpre]
    simp only [estimate_base64_decoded_upper_bound_len, hidem]
    rw [if_pos (by omega)]
  · intro i bs2 hfind hdec2 hover hpre
    have hcore2 := base64_decode_length (trimChars ((trimChars s).drop (i + 8))) bs2 hdec2
    unfold parse_base64_with_limit
    rw [if_pos hpre, hfind]
    simp only [estimate_base64_decoded_upper_bound_len]
    rw [if_pos (by omega)]

theorem base64_estimate_conservative_witness :
    ([65, 66, 67] : List Nat).length ≤
      estimate_base64_decoded_upper_bound_len "QUJD".toList :=
  (base64_estimate_conservative "QUJD".toList 2 [65, 66, 67] (by decide)).1

/-- C10: an input whose trimmed form starts with `data:image/` but contains no
`;base64,` marker makes `parse_base64_with_limit` (and `load_from_base64`)
return the `InvalidFormat` "missing base64 marker" error, with no Base64
decoding attempted; an input not starting with `data:image/` that passes the
size estimate is decoded as plain standard-alphabet Base64. -/
theorem parse_base64_marker_and_plain_paths (s : List Char) (cfg : ImageConfig) :
    ("data:image/".toList.isPrefixOf (trimChars s) →
      findSubstringIdx ";base64,".toList (trimChars s) = none →
      parse_base64_with_limit s cfg.max_file_size =
          Except.error (ImageError.InvalidFormat "缺少 base64 标记".toList) ∧
        load_from_base64 s cfg =
          Except.error (ImageError.InvalidFormat "缺少 base64 标记".toList)) ∧
    (¬ "data:image/".toList.isPrefixOf (trimChars s) →
      ¬ cfg.max_file_size < estimate_base64_decoded_upper_bound_len (trimChars s) →
      parse_base64_with_limit s cfg.max_file_size =
        match base64_decode (trimChars s) with
        | some bytes => Except.ok bytes
        | none => Except.error (ImageError.Decode "Base64 解码失败".toList)) := by
  constructor
  · intro hpre hfind
    have hparse : parse_base64_with_limit s cfg.max_file_size =
        Except.error (ImageError.InvalidFormat "缺少 base64 标记".toList) := by
      unfold parse_base64_with_limit
      rw [if_pos hpre, hfind]
    exact ⟨hparse, by unfold load_from_base64; rw [hparse]⟩
  · intro hpre hest
    unfold parse_base64_with_limit
    rw [if_neg hpre]
    simp only []
    rw [if_neg hest]

theorem fracMin_eq_or (x y : Nat × Nat) : fracMin x y = x ∨ fracMin x y = y := by
  unfold fracMin; split
  · exact Or.inl rfl
  · exact Or.inr rfl

theorem fracMin_le_left (x y : Nat × Nat) :
    (fracMin x y).1 * x.2 ≤ x.1 * (fracMin x y).2 := by
  unfold fracMin; split
  · exact le_rfl
  · rename_i hc
    omega

theorem fracMin_le_right (x y : Nat × Nat) :
    (fracMin x y).1 * y.2 ≤ y.1 * (fracMin x y).2 := by
  unfold fracMin; split
  · rename_i hc
    exact hc
  · exact le_rfl

theorem fracLe_trans {a b c d e f : Nat} (hd : 0 < d)
    (h1 : a * d ≤ c * b) (h2 : c * f ≤ e * d) : a * f ≤ e * b := by
  have h3 : a * f * d ≤ e * b * d := by
    calc a * f * d = a * d * f := by ring
    _ ≤ c * b * f := Nat.mul_le_mul h1 le_rfl
    _ = c * f * b := by ring
    _ ≤ e * d * b := Nat.mul_le_mul h2 le_rfl
    _ = e * b * d := by ring
  exact Nat.le_of_mul_le_mul_right h3 hd

/-- C1: with adaptive resize enabled, positive limits and a decoded image
exceeding the dimension cap or the pixel target, a successful
`decode_and_prepare_for_clipboard` yields `width ≤ clipboard_max_dimension`,
`height ≤ clipboard_max_dimension`, a pixel count within
`max(clipboard_target_pixels, clipboard_max_dimension)` in general — the
relaxation to `clipboard_max_dimension` being exactly what the
1-pixel-per-axis minimum can force — and exactly
`width*height ≤ clipboard_target_pixels` whenever neither floored axis hits
the 1-pixel minimum; the byte buffer has length exactly `width*height*4`.
The pair `(pn, pd)` is the `f64` square root `sqrt(target/pixels)` computed
by the code, constrained here by `pn² · (w·h) ≤ target · pd²`. -/
theorem decode_prepare_resize_invariant (config : ImageConfig) (w h pn pd : Nat)
    (toRgbaBytes : Nat → Nat → List Nat) (p : PreparedClipboardImage)
    (hadapt : config.adaptive_resize = true)
    (hdim : 1 ≤ config.clipboard_max_dimension)
    (hw : 1 ≤ w) (hh : 1 ≤ h) (hpn : 1 ≤ pn) (hpd : 1 ≤ pd)
    (hsqrt : pn * pn * (w * h) ≤ config.clipboard_target_pixels * (pd * pd))
    (hover : config.clipboard_max_dimension < w ∨ config.clipboard_max_dimension < h ∨
      config.clipboard_target_pixels < w * h)
    (hok : decode_and_prepare_for_clipboard config w h pn pd toRgbaBytes = Except.ok p) :
    p.width ≤ config.clipboard_max_dimension ∧
    p.height ≤ config.clipboard_max_dimension ∧
    p.width * p.height ≤
      max config.clipboard_target_pixels config.clipboard_max_dimension ∧
    (1 ≤ w * (downscaleScaleFrac config w h pn pd).1 / (downscaleScaleFrac config w h pn pd).2 →
      1 ≤ h * (downscaleScaleFrac config w h pn pd).1 / (downscaleScaleFrac config w h pn pd).2 →
      p.width * p.height ≤ config.clipboard_target_pixels) ∧
    p.bytes.length = p.width * p.height * 4 := by
  set M := config.clipboard_max_dimension with hM
  set target := config.clipboard_target_pixels with htarget
  -- facts about the selected scale fraction
  set A := fracMin (M, w) (M, h) with hA
  set B := fracMin A (pn, pd) with hB
  set s := fracMin B (1, 1) with hs
  have hseq : downscaleScaleFrac config w h pn pd = s := by
    simp only [downscaleScaleFrac, hs, hB, hA, hM]
  have hA2 : 0 < A.2 := by
    rcases fracMin_eq_or (M, w) (M, h) with he | he
    · rw [hA, he]; exact hw
    · rw [hA, he]; exact hh
  have hA1 : A.1 = M := by
    rcases fracMin_eq_or (M, w) (M, h) with he | he
    · rw [hA, he]
    · rw [hA, he]
  have hB2 : 0 < B.2 := by
    rcases fracMin_eq_or A (pn, pd) with he | he
    · rw [hB, he]; exact hA2
    · rw [hB, he]; exact hpd
  have hs2 : 0 < s.2 := by
    rcases fracMin_eq_or B (1, 1) with he | he
    · rw [hs, he]; exact hB2
    · rw [hs, he]; exact Nat.one_pos
  have hB1 : 0 < B.1 := by
    rcases fracMin_eq_or A (pn, pd) with he | he
    · rw [hB, he, hA1]; exact hdim
    · rw [hB, he]; exact hpn
  have hs1 : 0 < s.1 := by
    rcases fracMin_eq_or B (1, 1) with he | he
    · rw [hs, he]; exact hB1
    · rw [hs, he]; exact Nat.one_pos
  have hsB : s.1 * B.2 ≤ B.1 * s.2 := fracMin_le_left B (1, 1)
  have hBA : B.1 * A.2 ≤ A.1 * B.2 := fracMin_le_left A (pn, pd)
  have hsA : s.1 * A.2 ≤ A.1 * s.2 := fracLe_trans hB2 hsB hBA
  have key1 : s.1 * w ≤ M * s.2 := by
    have hAw : A.1 * w ≤ M * A.2 := by
      have := fracMin_le_left (M, w) (M, h)
      rw [← hA] at this
      exact this
    exact fracLe_trans hA2 hsA hAw
  have key2 : s.1 * h ≤ M * s.2 := by
    have hAh : A.1 * h ≤ M * A.2 := by
      have := fracMin_le_right (M, w) (M, h)
      rw [← hA] at this
      exact this
    exact fracLe_trans hA2 hsA hAh
  have key3 : s.1 * pd ≤ pn * s.2 := by
    have hBp : B.1 * pd ≤ pn * B.2 := by
      have := fracMin_le_right A (pn, pd)
      rw [← hB] at this
      exact this
    exact fracLe_trans hB2 hsB hBp
  -- unravel the successful run
  unfold decode_and_prepare_for_clipboard at hok
  split at hok
  · exact Except.noConfusion hok
  split at hok
  · exact Except.noConfusion hok
  split at hok
  · exact Except.noConfusion hok
  rename_i width height hds
  simp only [ne_eq] at hok
  split at hok
  · exact Except.noConfusion hok
  rename_i hlen
  rw [Decidable.not_not] at hlen
  injection hok with hok
  subst hok
  -- unravel the downscale
  simp only [maybe_downscale_for_clipboard] at hds
  rw [if_neg (by simp [hadapt])] at hds
  rw [if_neg (by rw [← hM, ← htarget]; tauto)] at hds
  rw [hseq, if_neg (by omega)] at hds
  injection hds with hds
  obtain ⟨hwidth, hheight⟩ := Prod.mk.injEq _ _ _ _ ▸ hds
  set dw := w * s.1 / s.2 with hdw
  set dh := h * s.1 / s.2 with hdh
  have bound1 : dw ≤ M := by
    have h1 : w * s.1 ≤ M * s.2 := by
      calc w * s.1 = s.1 * w := by ring
      _ ≤ M * s.2 := key1
    calc dw ≤ M * s.2 / s.2 := Nat.div_le_div_right h1
    _ = M := Nat.mul_div_cancel M hs2
  have bound2 : dh ≤ M := by
    have h1 : h * s.1 ≤ M * s.2 := by
      calc h * s.1 = s.1 * h := by ring
      _ ≤ M * s.2 := key2
    calc dh ≤ M * s.2 / s.2 := Nat.div_le_div_right h1
    _ = M := Nat.mul_div_cancel M hs2
  have hprod : 1 ≤ dw → 1 ≤ dh → dw * dh ≤ target := by
    intro h1w h1h
    have hAle : dw * s.2 ≤ w * s.1 := Nat.div_mul_le_self (w * s.1) s.2
    have hBle : dh * s.2 ≤ h * s.1 := Nat.div_mul_le_self (h * s.1) s.2
    have hq1 : dw * dh * (s.2 * s.2) ≤ w * h * (s.1 * s.1) := by
      calc dw * dh * (s.2 * s.2) = (dw * s.2) * (dh * s.2) := by ring
      _ ≤ (w * s.1) * (h * s.1) := Nat.mul_le_mul hAle hBle
      _ = w * h * (s.1 * s.1) := by ring
    have hq2 : s.1 * s.1 * (pd * pd) ≤ pn * pn * (s.2 * s.2) := by
      calc s.1 * s.1 * (pd * pd) = (s.1 * pd) * (s.1 * pd) := by ring
      _ ≤ (pn * s.2) * (pn * s.2) := Nat.mul_le_mul key3 key3
      _ = pn * pn * (s.2 * s.2) := by ring
    have hq3 : dw * dh * (s.2 * s.2 * (pd * pd)) ≤ target * (s.2 * s.2 * (pd * pd)) := by
      calc dw * dh * (s.2 * s.2 * (pd * pd))
          = dw * dh * (s.2 * s.2) * (pd * pd) := by ring
      _ ≤ w * h * (s.1 * s.1) * (pd * pd) := Nat.mul_le_mul hq1 le_rfl
      _ = w * h * (s.1 * s.1 * (pd * pd)) := by ring
      _ ≤ w * h * (pn * pn * (s.2 * s.2)) := Nat.mul_le_mul le_rfl hq2
      _ = pn * pn * (w * h) * (s.2 * s.2) := by ring
      _ ≤ target * (pd * pd) * (s.2 * s.2) := Nat.mul_le_mul hsqrt le_rfl
      _ = target * (s.2 * s.2 * (pd * pd)) := by ring
    exact Nat.le_of_mul_le_mul_right hq3
      (Nat.mul_pos (Nat.mul_pos hs2 hs2) (Nat.mul_pos (by omega) (by omega)))
  subst hwidth hheight
  refine ⟨by simpa using by omega, by simpa using by omega, ?_, ?_, ?_⟩
  · by_cases h1w : 1 ≤ dw <;> by_cases h1h : 1 ≤ dh
    · have := hprod h1w h1h
      have e1 : max dw 1 = dw := by omega
      have e2 : max dh 1 = dh := by omega
      rw [e1, e2]
      exact le_trans this (le_max_left _ _)
    · have e2 : max dh 1 = 1 := by omega
      rw [e2, Nat.mul_one]
      exact le_trans (le_trans (by omega : max dw 1 ≤ M) le_rfl) (le_max_right _ _)
    · have e1 : max dw 1 = 1 := by omega
      rw [e1, Nat.one_mul]
      exact le_trans (by omega : max dh 1 ≤ M) (le_max_right _ _)
    · have e1 : max dw 1 = 1 := by omega
      have e2 : max dh 1 = 1 := by omega
      rw [e1, e2]
      exact le_trans (by omega : 1 * 1 ≤ M) (le_max_right _ _)
  · intro h1w h1h
    rw [hseq] at h1w h1h
    have := hprod h1w h1h
    have e1 : max dw 1 = dw := by omega
    have e2 : max dh 1 = dh := by omega
    rw [e1, e2]
    exact this
  · exact hlen

theorem decode_prepare_resize_invariant_witness :
    (⟨3, 2, List.replicate 24 0⟩ : PreparedClipboardImage).width ≤
      witnessConfigResize.clipboard_max_dimension :=
  (decode_prepare_resize_invariant witnessConfigResize 10 6 36 100 witnessRgbaBytes
    ⟨3, 2, List.replicate 24 0⟩ (by decide) (by decide) (by decide) (by decide)
    (by decide) (by decide) (by decide) (by decide) (by rfl)).1

/-- C7 counterexample: a `downloading` emission whose downloaded byte count
equals the total also reports 100, so 100 is not reported *only* on the
terminal `completed` status. -/
theorem progress_percent_100_not_only_completed :
    computeProgressPercent "downloading".toList 5 (some 5) = 100 ∧
      "downloading".toList ≠ "completed".toList := by
  constructor
  · decide
  · decide

/-- C7 (amended): the reported percentage is always 100 when the status is
`completed`; for any other status a total of 0 or an unknown total yields 0,
and a known positive total yields `min(downloaded.saturating_mul(100)/total,
100)`, which equals the exact `min(100, downloaded*100/total)` whenever
`downloaded*100` does not overflow `u64` (so a non-completed emission can
itself reach 100 when `downloaded ≥ total`). -/
theorem compute_progress_percent_spec (status : List Char) (d : Nat) (t : Option Nat) :
    (status = "completed".toList → computeProgressPercent status d t = 100) ∧
    (status ≠ "completed".toList → t = none → computeProgressPercent status d t = 0) ∧
    (status ≠ "completed".toList → t = some 0 → computeProgressPercent status d t = 0) ∧
    (∀ tb, status ≠ "completed".toList → t = some tb → 0 < tb →
      computeProgressPercent status d t = min (satMul64 d 100 / tb) 100) ∧
    (∀ tb, status ≠ "completed".toList → t = some tb → 0 < tb → d * 100 ≤ U64_MAX →
      computeProgressPercent status d t = min (d * 100 / tb) 100) := by
  refine ⟨?_, ?_, ?_, ?_, ?_⟩
  · intro hc
    simp [computeProgressPercent, hc]
  · intro hc ht
    subst ht
    unfold computeProgressPercent
    rw [if_neg hc]
  · intro hc ht
    subst ht
    unfold computeProgressPercent
    rw [if_neg hc]
  · intro tb hc ht htb
    subst ht
    unfold computeProgressPercent
    rw [if_neg hc]
    match tb, htb with
    | n + 1, _ => rfl
  · intro tb hc ht htb hnoov
    subst ht
    unfold computeProgressPercent
    rw [if_neg hc]
    have hs : satMul64 d 100 = d * 100 := min_eq_left hnoov
    match tb, htb with
    | n + 1, _ =>
      rw [hs]
      rfl

/-- C8: `set_advanced_config` accepts exactly the argument tuples inside the
documented ranges; any out-of-range argument makes it return an error with
the stored configuration exactly unchanged, and in-range arguments update
precisely the eight advanced fields. -/
theorem set_advanced_config_validates (config : ImageConfig) (apn rdns : Bool)
    (maxdb ct fb ck rt rd : Nat) :
    (¬ advancedArgsInRange maxdb ct fb ck rt rd →
      ∃ e, set_advanced_config config apn rdns maxdb ct fb ck rt rd = (config, some e)) ∧
    (advancedArgsInRange maxdb ct fb ck rt rd →
      set_advanced_config config apn rdns maxdb ct fb ck rt rd =
        ({ config with
            allow_private_network := apn
            resolve_dns_for_url_safety := rdns
            max_decoded_bytes := maxdb
            connect_timeout := ct
            stream_first_byte_timeout_ms := fb
            stream_chunk_timeout_ms := ck
            clipboard_retry_max_total_ms := rt
            clipboard_retry_max_delay_ms := rd }, none)) := by
  constructor
  · intro hnot
    unfold set_advanced_config
    split_ifs with h1 h2 h3 h4 h5 h6 h7
    all_goals try exact ⟨_, rfl⟩
    all_goals exact absurd (by unfold advancedArgsInRange; omega) hnot
  · intro hin
    unfold advancedArgsInRange at hin
    unfold set_advanced_config
    split_ifs with h1 h2 h3 h4 h5 h6 h7
    all_goals try rfl
    all_goals exfalso
    all_goals omega

/-- C5: with the HTTP and HTTPS schemes, `validate_url_safety` rejects both
`http://127.0.0.1/...` (a loopback IP literal) and `https://localhost/...`
(a local hostname) whenever `allow_private_network` is false, and accepts
both whenever it is true — for every configuration and every behaviour of
the DNS resolver, which is never consulted for these URLs. -/
theorem validate_url_safety_ssrf_gate (config : ImageConfig) (resolver : DnsResolver) :
    (config.allow_private_network = false →
      (∃ m, validate_url_safety resolver "http://127.0.0.1/image.png".toList config =
        Except.error (ImageError.InvalidFormat m)) ∧
      (∃ m, validate_url_safety resolver "https://localhost/image.png".toList config =
        Except.error (ImageError.InvalidFormat m))) ∧
    (config.allow_private_network = true →
      validate_url_safety resolver "http://127.0.0.1/image.png".toList config =
          Except.ok () ∧
        validate_url_safety resolver "https://localhost/image.png".toList config =
          Except.ok ()) := by
  constructor
  · intro hfalse
    constructor
    · refine ⟨"禁止访问内网 IP".toList, ?_⟩
      unfold validate_url_safety
      rw [show parseUrl "http://127.0.0.1/image.png".toList =
        some ⟨"http".toList, "127.0.0.1".toList, none, "/image.png".toList, none, none⟩
        from by decide]
      have hip : parseIpv4 ['1', '2', '7', '.', '0', '.', '0', '.', '1'] =
          some (IpAddr.v4 127 0 0 1) := by decide
      simp +decide [hfalse, hip]
    · refine ⟨"禁止访问本地网络地址".toList, ?_⟩
      unfold validate_url_safety
      rw [show parseUrl "https://localhost/image.png".toList =
        some ⟨"https".toList, "localhost".toList, none, "/image.png".toList, none, none⟩
        from by decide]
      simp +decide [hfalse]
  · intro htrue
    constructor
    · unfold validate_url_safety
      rw [show parseUrl "http://127.0.0.1/image.png".toList =
        some ⟨"http".toList, "127.0.0.1".toList, none, "/image.png".toList, none, none⟩
        from by decide]
      simp +decide [htrue]
    · unfold validate_url_safety
      rw [show parseUrl "https://localhost/image.png".toList =
        some ⟨"https".toList, "localhost".toList, none, "/image.png".toList, none, none⟩
        from by decide]
      simp +decide [htrue]

theorem minByCreated_eq_none (l : DownloadCache) : minByCreated l = none ↔ l = [] := by
  cases l with
  | nil => simp [minByCreated]
  | cons x xs =>
    constructor
    · intro h
      unfold minByCreated at h
      split at h
      · exact Option.noConfusion h
      · split at h <;> exact Option.noConfusion h
    · intro h
      exact absurd h (by simp)

theorem minByCreated_mem (l : DownloadCache) (m : List Char × CachedUrlDownload)
    (h : minByCreated l = some m) : m ∈ l := by
  induction l with
  | nil => exact Option.noConfusion h
  | cons x xs ih =>
    unfold minByCreated at h
    split at h
    · injection h with h
      subst h
      exact List.mem_cons_self x xs
    · split at h
      · injection h with h
        subst h
        exact List.mem_cons_self x xs
      · injection h with h
        subst h
        exact List.mem_cons_of_mem x (ih (by assumption))

theorem minByCreated_min (l : DownloadCache) :
    ∀ m, minByCreated l = some m → ∀ e ∈ l, m.2.created_at ≤ e.2.created_at := by
  induction l with
  | nil => intro m h; exact Option.noConfusion h
  | cons x xs ih =>
    intro m h e he
    unfold minByCreated at h
    split at h
    · rename_i hnone
      have hxs : xs = [] := (minByCreated_eq_none xs).mp hnone
      subst hxs
      injection h with h
      subst h
      simp only [List.mem_cons, List.not_mem_nil, or_false] at he
      subst he
      exact le_rfl
    · rename_i m' hm'
      split at h
      · rename_i hle
        injection h with h
        subst h
        rcases List.mem_cons.mp he with rfl | he
        · exact le_rfl
        · exact le_trans hle (ih m' hm' e he)
      · rename_i hgt
        injection h with h
        subst h
        rcases List.mem_cons.mp he with rfl | he
        · omega
        · exact ih m' hm' e he

theorem eraseP_key_ne {α : Type} (k : List Char) (l : List (List Char × α))
    (hnd : (l.map Prod.fst).Nodup) :
    ∀ e ∈ l.eraseP (fun x => x.1 == k), e.1 ≠ k := by
  induction l with
  | nil => simp
  | cons x xs ih =>
    intro e he
    by_cases hx : (x.1 == k) = true
    · simp only [List.eraseP_cons, hx, cond_true] at he
      have hk : x.1 = k := eq_of_beq hx
      have hnotin : x.1 ∉ xs.map Prod.fst := by
        simp only [List.map_cons, List.nodup_cons] at hnd
        exact hnd.1
      intro hek
      exact hnotin (hk ▸ hek ▸ List.mem_map_of_mem Prod.fst he)
    · have hx' : (x.1 == k) = false := by simpa using hx
      simp only [List.eraseP_cons, hx', cond_false] at he
      rcases List.mem_cons.mp he with rfl | he
      · exact fun hek => hx (beq_iff_eq.mpr hek)
      · exact ih (by simp only [List.map_cons, List.nodup_cons] at hnd; exact hnd.2) e he

/-- C6 counterexample: cache entries are keyed by the full URL string, not by
the query-stripped normalized URL — two URLs with the same
scheme+host+port+path normalization (`redact_url_for_log`) but different
query strings do not share a cache entry: after storing under the full URL,
looking up the stripped URL misses while the full URL hits. -/
theorem download_cache_not_keyed_by_stripped_url :
    redact_url_for_log c6UrlWithQuery = redact_url_for_log c6UrlStripped ∧
    c6UrlWithQuery ≠ c6UrlStripped ∧
    (get_cached_download 0 (store_download_cache 0 [] c6UrlWithQuery [7]) c6UrlStripped).2 =
      none ∧
    (get_cached_download 0 (store_download_cache 0 [] c6UrlWithQuery [7]) c6UrlWithQuery).2 =
      some [7] := by
  refine ⟨by decide, by decide, by decide, by decide⟩

/-- C6 (amended): cache entries are keyed by the full parsed URL string
(query and fragment are stripped only by the log redaction); a lookup only
ever returns bytes from an entry whose key equals the looked-up URL and
whose age is within the TTL; a store keeps the cache at its maximum entry
count; and when the purged cache is at or above the maximum, a store first
evicts the entry with the oldest creation time (the key it removes is a
minimal-`created_at` entry and is absent afterwards unless re-inserted as
the stored URL itself). -/
theorem download_cache_ttl_and_oldest_eviction (now : Nat) (cache : DownloadCache)
    (url : List Char) (bytes : List Nat) :
    (∀ bs, (get_cached_download now cache url).2 = some bs →
      ∃ e, e ∈ cache ∧ e.1 = url ∧
        now - e.2.created_at ≤ DOWNLOAD_CACHE_TTL_SECS ∧ e.2.bytes = bs) ∧
    (cache.length ≤ DOWNLOAD_CACHE_MAX_ENTRIES →
      (store_download_cache now cache url bytes).length ≤ DOWNLOAD_CACHE_MAX_ENTRIES) ∧
    (∀ oldest, minByCreated (cacheRetainFresh now cache) = some oldest →
      oldest ∈ cacheRetainFresh now cache ∧
        ∀ e ∈ cacheRetainFresh now cache, oldest.2.created_at ≤ e.2.created_at) ∧
    (∀ oldest, (cache.map Prod.fst).Nodup →
      minByCreated (cacheRetainFresh now cache) = some oldest →
      DOWNLOAD_CACHE_MAX_ENTRIES ≤ (cacheRetainFresh now cache).length →
      bytes ≠ [] → oldest.1 ≠ url →
      ∀ e ∈ store_download_cache now cache url bytes, e.1 ≠ oldest.1) := by
  refine ⟨?_, ?_, ?_, ?_⟩
  · intro bs h
    simp only [get_cached_download] at h
    rw [Option.map_eq_some'] at h
    obtain ⟨item, hfind, hbytes⟩ := h
    simp only [cacheLookup] at hfind
    rw [Option.map_eq_some'] at hfind
    obtain ⟨e, hfind', hitem⟩ := hfind
    have hmem : e ∈ cacheRetainFresh now cache := List.mem_of_find?_eq_some hfind'
    have hkey : e.1 = url := by simpa using List.find?_some hfind'
    rw [cacheRetainFresh, List.mem_filter] at hmem
    refine ⟨e, hmem.1, hkey, of_decide_eq_true hmem.2, ?_⟩
    rw [hitem, hbytes]
  · intro hlen
    unfold store_download_cache
    split
    · exact hlen
    dsimp only
    have hfresh : (cacheRetainFresh now cache).length ≤ cache.length :=
      List.length_filter_le _ _
    have hinsert : ∀ (c : DownloadCache) (item : CachedUrlDownload),
        (cacheInsert c url item).length ≤ c.length + 1 := by
      intro c item
      simp only [cacheInsert, List.length_append, List.length_cons, List.length_nil]
      have hsub := (@List.eraseP_sublist _ (fun e => e.1 == url) c).length_le
      omega
    split
    · rename_i hmax
      split
      · rename_i oldest hm
        have hmem := minByCreated_mem _ _ hm
        have herase := @List.length_eraseP_add_one _ (fun e => e.1 == oldest.1)
          (cacheRetainFresh now cache) oldest hmem (by simp)
        have hi := hinsert ((cacheRetainFresh now cache).eraseP (fun e => e.1 == oldest.1))
          ⟨now, bytes⟩
        omega
      · rename_i hm
        have hempty : cacheRetainFresh now cache = [] := (minByCreated_eq_none _).mp hm
        rw [hempty] at hmax
        simp [DOWNLOAD_CACHE_MAX_ENTRIES] at hmax
    · rename_i hmax
      have hi := hinsert (cacheRetainFresh now cache) ⟨now, bytes⟩
      omega
  · intro oldest hm
    exact ⟨minByCreated_mem _ _ hm, minByCreated_min _ _ hm⟩
  · intro oldest hnd hm hmax hbytes hne e he
    unfold store_download_cache at he
    rw [if_neg (by simpa using hbytes)] at he
    dsimp only at he
    rw [if_pos hmax, hm] at he
    simp only [cacheInsert, List.mem_append, List.mem_singleton] at he
    have hndfresh : ((cacheRetainFresh now cache).map Prod.fst).Nodup :=
      List.Nodup.sublist (List.Sublist.map Prod.fst (List.filter_sublist cache)) hnd
    rcases he with he | rfl
    · have hsub := @List.eraseP_sublist _ (fun x => x.1 == url)
        ((cacheRetainFresh now cache).eraseP (fun x => x.1 == oldest.1))
      have he' := hsub.mem he
      exact eraseP_key_ne oldest.1 (cacheRetainFresh now cache) hndfresh e he'
    · exact fun hc => hne hc.symm

end ClipboardHistory
